import Mathlib

/-!
Verification of the leaflens core against its design specification.

Shallow embedding of the two core components:

* the multi-label metrics engine, `calculate_metrics` in
  `src/research/utils.py` (binarization at 0.5, accuracy via the
  scikit-learn `accuracy_score`, subset accuracy, Hamming loss and the
  mean per-class AUC with degenerate-class skipping);
* the dataset pipeline in `src/research/dataset.py` (directory-layout
  metadata synthesis, hash-based split assignment, one-hot label
  construction, positional indexing of a split view, and the
  keyword-based disease categorization).

Matrices are embedded as lists of rows over `Rat`; the NumPy machine
floats of the source are modelled as exact rationals, which is faithful
for the dyadic values the claims are about. Library calls
(scikit-learn, NumPy, pandas) are embedded by their documented
semantics, noted at each definition.
-/

namespace LeafLens

/-! Multi-label metrics engine, from `src/research/utils.py`. -/

/-- Embedding of `np.mean` over a flat list of rationals, the sum of the
entries divided by their number. The NumPy mean of an empty array is the
float `nan`; in `Rat` the division by zero returns `0`, and every theorem
below that depends on the value of a mean is stated on nonempty data. -/
def ratMean (l : List Rat) : Rat := l.sum / (l.length : Rat)

/-- Line 31 of `utils.py`, `(y_pred > 0.5).astype(int)` on one entry: the
binarized label is `1` exactly when the score is strictly greater than
one half. -/
def binarizeOne (p : Rat) : Rat := if p > 1/2 then 1 else 0

/-- Binarization of a whole prediction matrix, row by row. -/
def binarizeM (yp : List (List Rat)) : List (List Rat) :=
  yp.map (fun row => row.map binarizeOne)

/-- Elementwise agreement indicators of two rows, `1` where the entries
are equal and `0` where they differ (the NumPy comparison `a == b`). -/
def rowAgree (a b : List Rat) : List Rat :=
  List.zipWith (fun x y => if x = y then (1:Rat) else 0) a b

/-- Elementwise disagreement indicators of two rows (the NumPy
comparison `a != b`). -/
def rowDiffer (a b : List Rat) : List Rat :=
  List.zipWith (fun x y => if x = y then (0:Rat) else 1) a b

/-- Indicator that two rows agree in every position, `np.all(a == b)`
on rows of equal length. -/
def rowAllEq (a b : List Rat) : Rat := if (rowAgree a b).all (· = 1) then 1 else 0

/-- Embedding of the scikit-learn `accuracy_score(y_true, y_pred_binary)`
call on line 44 of `utils.py`. On multilabel-indicator input (the N by C
binary matrices this function receives) scikit-learn computes subset
accuracy: the mean over samples of the indicator that the whole row
matches exactly. When C = 1 the input is treated as plain binary labels
and scored elementwise, which on one-entry rows is the same number, so a
single definition covers both branches. -/
def accuracy_score (yt ypb : List (List Rat)) : Rat :=
  ratMean (List.zipWith rowAllEq yt ypb)

/-- Line 47 of `utils.py`,
`np.mean(np.all(y_true == y_pred_binary, axis=1))`. -/
def subsetAccuracy (yt ypb : List (List Rat)) : Rat :=
  ratMean (List.zipWith rowAllEq yt ypb)

/-- Line 50 of `utils.py`, `np.mean(y_true != y_pred_binary)`: mean of
the flattened elementwise disagreement matrix. -/
def hammingLoss (yt ypb : List (List Rat)) : Rat :=
  ratMean (List.zipWith rowDiffer yt ypb).flatten

/-- Column `i` of a matrix, the NumPy slice `m[:, i]`; the default `0` of
`getD` is never reached on the proper N by C matrices of the source. -/
def matCol (m : List (List Rat)) (i : Nat) : List Rat :=
  m.map (fun r => r.getD i 0)

/-- Embedding of `sklearn.metrics.roc_auc_score(t, s)` for a binary
truth column `t` over `{0, 1}` containing both values: the probability
that a uniformly chosen positive score exceeds a uniformly chosen
negative score, counting ties one half (the standard Mann-Whitney form
of the ROC AUC). -/
def rocAucScore (t s : List Rat) : Rat :=
  let pos := (List.zip t s).filterMap (fun x => if x.1 = 1 then some x.2 else none)
  let neg := (List.zip t s).filterMap (fun x => if x.1 = 0 then some x.2 else none)
  (pos.map (fun p =>
    (neg.map (fun n => if n < p then (1:Rat) else if p = n then 1/2 else 0)).sum)).sum
    / ((pos.length : Rat) * (neg.length : Rat))

/-- Check that a truth column only holds the values `0` and `1`; on any
other qualifying column `roc_auc_score` raises `ValueError`, which the
source catches to report `0.0`. -/
def columnBinary (t : List Rat) : Bool := t.all (fun v => v == 0 || v == 1)

/-- Lines 53 to 61 of `utils.py`: iterate over the `y_true.shape[1]`
columns, skip every column whose ground-truth values have fewer than two
distinct members (the `len(np.unique(..)) > 1` guard), collect the ROC
AUC of the remaining columns, average them, and report `0.0` when no
column qualifies; the surrounding `except ValueError` (reached when a
qualifying truth column is not `{0, 1}`-valued) also reports `0.0`. -/
def aucField (yt yp : List (List Rat)) : Rat :=
  let C := (yt.headD []).length
  let qual := (List.range C).filter (fun i => 1 < (matCol yt i).dedup.length)
  if qual.all (fun i => columnBinary (matCol yt i)) then
    if qual.isEmpty then 0
    else ratMean (qual.map (fun i => rocAucScore (matCol yt i) (matCol yp i)))
  else 0

/-- Report produced by `calculate_metrics`. The source also returns
macro and micro precision, recall and F1 from
`precision_recall_fscore_support`; no claim concerns those six fields
and they are not modelled here. -/
structure MetricsReport where
  accuracy : Rat
  subset_accuracy : Rat
  hamming_loss : Rat
  auc : Rat
deriving Repr

/-- Embedding of `calculate_metrics(y_true, y_pred)` from
`src/research/utils.py`, lines 19 to 74, restricted to the four fields
the claims are about. The prediction matrix is binarized once at the
strict 0.5 threshold and every field except `auc` is computed from the
binarized matrix; `auc` consumes the raw scores. -/
def calculate_metrics (y_true y_pred : List (List Rat)) : MetricsReport :=
  let ypb := binarizeM y_pred
  { accuracy := accuracy_score y_true ypb
    subset_accuracy := subsetAccuracy y_true ypb
    hamming_loss := hammingLoss y_true ypb
    auc := aucField y_true y_pred }

/-! Dataset pipeline, from `src/research/dataset.py`. -/

/-- Per-sample record synthesized by the Metadata Resolver: the row
appended on lines 65 to 69 of `dataset.py`. -/
structure SampleRecord where
  image_path : String
  class_name : String
  split : String
deriving DecidableEq, Repr

/-- Embedding of `PlantDiseaseDataset._assign_split`, lines 73 to 82 of
`dataset.py`. The Python builtin `hash` on a string is salted with a
fresh unpredictable value in every interpreter process (the
`PYTHONHASHSEED` mechanism), so it is embedded as an explicit parameter
`h`: within one process every call sees the same `h`, while two
independent processes see unrelated ones. The Python `%` on a positive
modulus agrees with the integer `emod` used here, giving a bucket in
`[0, 100)`. -/
def assignSplit (h : String → Int) (name : String) : String :=
  let hashVal := h name % 100
  if hashVal < 70 then "train"
  else if hashVal < 85 then "val"
  else "test"

/-- One entry of the dataset root directory as seen by
`Path.iterdir()`: its name, whether it is a directory, and the names of
the plain files inside it. -/
structure DirEntry where
  name : String
  isDir : Bool
  files : List String
deriving DecidableEq, Repr

/-- Suffix test on strings as character sequences, the Python
`s.endswith(suf)`. -/
def strEndsWith (s suf : String) : Bool := suf.toList.isSuffixOf s.toList

/-- Whether a string starts with the given string, the Python
`s.startswith(p)`, on strings as character sequences. -/
def strStartsWith (s p : String) : Bool := p.toList.isPrefixOf s.toList

/-- Embedding of the `class_dir.glob('*.jpg')` call on line 64 of
`dataset.py`: the pathlib glob keeps exactly the entries whose name ends
in `.jpg`. Unlike the `glob` module, `pathlib.Path.glob` is plain
fnmatch matching with no hidden-file special case, so a dot-prefixed
name such as `.x.jpg` is matched too. -/
def globJpg (files : List String) : List String :=
  files.filter (fun f => strEndsWith f ".jpg")

/-- Embedding of
`PlantDiseaseDataset._create_metadata_from_structure`, lines 56 to 71 of
`dataset.py`: every immediate subdirectory of the root whose name does
not start with a dot contributes one record per `*.jpg` file in it, with
the path relative to the root, the directory name as class name, and the
hash-assigned split. -/
def createMetadataFromStructure (h : String → Int) (root : List DirEntry) :
    List SampleRecord :=
  root.flatMap (fun d =>
    if d.isDir && !strStartsWith d.name "." then
      (globJpg d.files).map (fun f =>
        { image_path := d.name ++ "/" ++ f
          class_name := d.name
          split := assignSplit h f })
    else [])

/-- Lookup in the `class_to_idx` mapping; `none` is the Python
`KeyError` on a missing key. -/
def lookupIdx (m : List (String × Nat)) (k : String) : Option Nat :=
  (m.find? (fun p => p.1 == k)).map (·.2)

/-- Embedding of `PlantDiseaseDataset._create_label`, lines 136 to 143
of `dataset.py`: look the class name up in `class_to_idx` (`KeyError`
when absent), allocate `torch.zeros(num_classes)` and set position
`class_idx` to `1.0` (an index error when the stored index is not below
`num_classes`; both failures are the `none` branch). -/
def createLabel (class_to_idx : List (String × Nat)) (num_classes : Nat)
    (name : String) : Option (List Rat) :=
  match lookupIdx class_to_idx name with
  | none => none
  | some i =>
    if i < num_classes then some ((List.replicate num_classes (0:Rat)).set i 1)
    else none

/-- Errors a call of `__getitem__` can surface: the pandas positional
`IndexError`, the `NameError` from the unbound name `np`, and an I/O
failure while opening the image file. -/
inductive PyErr
  | indexError
  | nameError
  | ioError
deriving DecidableEq, Repr

/-- Embedding of the pandas `self.data.iloc[idx]` row lookup on line 114
of `dataset.py`. Pandas positional indexing with a scalar integer
behaves like Python list indexing: indices in `[0, n)` address from the
front, negative indices in `[-n, 0)` address from the back, and
everything else raises `IndexError`. -/
def ilocRow (view : List SampleRecord) (idx : Int) : Except PyErr SampleRecord :=
  let n : Int := view.length
  if 0 ≤ idx ∧ idx < n then
    match view.get? idx.toNat with
    | some r => .ok r
    | none => .error .indexError
  else if -n ≤ idx ∧ idx < 0 then
    match view.get? (idx + n).toNat with
    | some r => .ok r
    | none => .error .indexError
  else .error .indexError

/-- Embedding of `PlantDiseaseDataset.__getitem__`, lines 112 to 134 of
`dataset.py`. After the positional row lookup the source opens the image
(modelled by the oracle `openImage`, `none` being a failed read) and
then executes `image = np.array(image)` on line 121; `dataset.py` never
imports numpy, so the name `np` is unbound and this line raises
`NameError` on every path that reaches it. The remaining lines of the
body (transform application and label creation) are unreachable and are
not modelled; the call can therefore never return a sample. -/
def getitem (openImage : String → Option Unit) (view : List SampleRecord)
    (idx : Int) : Except PyErr Unit :=
  match ilocRow view idx with
  | .error e => .error e
  | .ok r =>
    match openImage r.image_path with
    | none => .error .ioError
    | some _ => .error .nameError

/-- The five categories of
`PlantVillageDataset._categorize_diseases`. -/
inductive Category
  | healthy
  | disease
  | pest
  | deficiency
  | environmental
deriving DecidableEq, Repr

/-- Lower-casing of a string as a character sequence, the Python
`s.lower()` (identical on the ASCII class names this code handles). -/
def lowerChars (s : String) : List Char := s.toList.map Char.toLower

/-- Substring containment test, the Python `pat in s` on character
sequences: some suffix of `s` starts with `pat`. -/
def strContains (s : List Char) (pat : String) : Bool :=
  s.tails.any (fun t => pat.toList.isPrefixOf t)

/-- Containment of any of a list of keywords, the Python
`any(k in s for k in ks)`. -/
def containsAny (s : List Char) (ks : List String) : Bool :=
  ks.any (fun k => strContains s k)

/-- Embedding of the per-class branch of
`PlantVillageDataset._categorize_diseases`, lines 182 to 193 of
`dataset.py`: lower-case the class name, then walk the keyword rules in
order with the first match winning. Line 190 of the source spells the
comprehension variable `def`, a Python reserved word, so the module as
written fails to parse; this definition follows the evident intent of
the chain (the variable name is immaterial to the semantics). -/
def categorizeOne (cls : String) : Category :=
  let l := lowerChars cls
  if strContains l "healthy" then .healthy
  else if containsAny l ["blight", "spot", "mildew", "rust", "wilt"] then .disease
  else if containsAny l ["aphid", "mite", "bug", "beetle"] then .pest
  else if containsAny l ["deficiency", "nutrient", "chlorosis"] then .deficiency
  else .environmental

/-- Embedding of `PlantVillageDataset._categorize_diseases`, lines 172
to 195 of `dataset.py`: the loop appends each class name to the single
category list chosen by `categorizeOne`, so category `c` collects, in
order, exactly the class names that categorize to `c`. -/
def categorizeDiseases (classes : List String) (c : Category) : List String :=
  classes.filter (fun cls => categorizeOne cls == c)

/-! Definitions following the words of the specification rather than the
source, used only to compare a spec sentence against the implementation. -/

/-- Definition following the words of claim C1 and the spec sentence
`accuracy: mean over all N x C individual label comparisons (ground
truth vs. binarized prediction)`: the mean of the flattened elementwise
agreement matrix. Stated independently of the implementation so the two
can be compared. -/
def specPerLabelAccuracy (yt yp : List (List Rat)) : Rat :=
  ratMean (List.zipWith rowAgree yt (binarizeM yp)).flatten

/-- Definition following the words of claim C6 and the spec sentence
`every image file within it becomes one SampleRecord`: a file counts as
an image file when it carries a standard raster image extension. The
spec does not restrict the sentence to one extension. -/
def specIsImageFile (f : String) : Bool :=
  [".jpg", ".jpeg", ".png"].any (fun e => strEndsWith f e)

/-! Helper lemmas about the embedded operations. -/

theorem zipWith_eq_map_zip {α β γ : Type} (f : α → β → γ) :
    ∀ (l1 : List α) (l2 : List β),
      List.zipWith f l1 l2 = (List.zip l1 l2).map (fun q => f q.1 q.2)
  | [], _ => by simp
  | _ :: _, [] => by simp
  | a :: l1, b :: l2 => by
    simp only [List.zipWith_cons_cons, List.zip_cons_cons, List.map_cons]
    rw [zipWith_eq_map_zip f l1 l2]

theorem rowAllEq_eq_if (a b : List Rat) (h : a.length = b.length) :
    rowAllEq a b = if a = b then 1 else 0 := by
  have key : ((rowAgree a b).all (fun x => decide (x = 1)) = true) ↔ a = b := by
    induction a generalizing b with
    | nil =>
      cases b with
      | nil => simp [rowAgree]
      | cons y ys => simp at h
    | cons x xs ih =>
      cases b with
      | nil => simp at h
      | cons y ys =>
        have h' : xs.length = ys.length := by simpa using h
        have he : ((if x = y then (1:Rat) else 0) = 1) ↔ x = y := by
          by_cases hc : x = y <;> simp [hc]
        simp [rowAgree, List.zipWith_cons_cons, he, ← ih ys h', rowAgree]
  unfold rowAllEq
  by_cases he : a = b
  · have hb := key.mpr he
    rw [if_pos hb, if_pos he]
  · have hb : (rowAgree a b).all (fun x => decide (x = 1)) = false :=
      Bool.eq_false_iff.mpr (fun hc => he (key.mp hc))
    rw [if_neg (by simp [hb]), if_neg he]

theorem zipWith_rowAllEq_sum (yt ypb : List (List Rat))
    (hlen : ∀ q ∈ List.zip yt ypb, q.1.length = q.2.length) :
    (List.zipWith rowAllEq yt ypb).sum
      = (((List.zip yt ypb).countP (fun q => q.1 == q.2)) : Rat) := by
  induction yt generalizing ypb with
  | nil => simp
  | cons a yt ih =>
    cases ypb with
    | nil => simp
    | cons b ypb =>
      have hab : a.length = b.length := hlen (a, b) (by simp)
      have hrest : ∀ q ∈ List.zip yt ypb, q.1.length = q.2.length := by
        intro q hq
        exact hlen q (by simp [List.zip_cons_cons, hq])
      rw [List.zipWith_cons_cons, List.sum_cons, rowAllEq_eq_if a b hab,
        List.zip_cons_cons, List.countP_cons, ih ypb hrest]
      by_cases hc : a = b <;> simp [hc] <;> push_cast <;> ring

theorem rowDiffer_sum (a b : List Rat) :
    (rowDiffer a b).sum = (((List.zip a b).countP (fun e => e.1 != e.2)) : Rat) := by
  induction a generalizing b with
  | nil => cases b <;> simp [rowDiffer]
  | cons x xs ih =>
    cases b with
    | nil => simp [rowDiffer]
    | cons y ys =>
      by_cases hc : x = y <;>
        simp [rowDiffer, List.zip_cons_cons, List.countP_cons, hc, bne_iff_ne,
          ← ih ys, rowDiffer] <;>
        push_cast <;> ring

theorem length_binarizeM (yp : List (List Rat)) : (binarizeM yp).length = yp.length := by
  simp [binarizeM]

theorem mem_binarizeM_length {yp : List (List Rat)} {C : Nat}
    (h : ∀ r ∈ yp, r.length = C) :
    ∀ r ∈ binarizeM yp, r.length = C := by
  intro r hr
  rcases List.mem_map.mp hr with ⟨r0, hr0, rfl⟩
  simpa using h r0 hr0

theorem zip_row_lengths {yt ypb : List (List Rat)} {C : Nat}
    (h1 : ∀ r ∈ yt, r.length = C) (h2 : ∀ r ∈ ypb, r.length = C) :
    ∀ q ∈ List.zip yt ypb, q.1.length = q.2.length := by
  intro q hq
  obtain ⟨hq1, hq2⟩ := List.of_mem_zip hq
  rw [h1 q.1 hq1, h2 q.2 hq2]

/-! Claim C1. -/

/-- Claim C1 as stated is false on the code: the `accuracy` field is the
scikit-learn `accuracy_score`, which on the N by C multilabel matrices of
this function computes the exact-match fraction of whole rows, not the
mean over the N times C individual label comparisons. At
`y_true = [[1,0],[0,1]]` and `y_pred` binarizing to `[[0,0],[0,1]]` the
field equals 1/2 while the per-label mean of the claim equals 3/4. -/
theorem C1_accuracy_not_per_label :
    (calculate_metrics [[1,0],[0,1]] [[0,0],[0,1]]).accuracy = 1/2
    ∧ specPerLabelAccuracy [[1,0],[0,1]] [[0,0],[0,1]] = 3/4
    ∧ (calculate_metrics [[1,0],[0,1]] [[0,0],[0,1]]).accuracy
        ≠ specPerLabelAccuracy [[1,0],[0,1]] [[0,0],[0,1]] := by
  have p1 : (calculate_metrics [[1,0],[0,1]] [[0,0],[0,1]]).accuracy = 1/2 := by
    norm_num [calculate_metrics, accuracy_score, binarizeM, binarizeOne, rowAllEq,
      rowAgree, ratMean]
  have p2 : specPerLabelAccuracy [[1,0],[0,1]] [[0,0],[0,1]] = 3/4 := by
    norm_num [specPerLabelAccuracy, binarizeM, binarizeOne, rowAgree, ratMean]
  exact ⟨p1, p2, by rw [p1, p2]; norm_num⟩

/-- Claim C1 amended: for N by C matrices, the `accuracy` field returned
by `calculate_metrics` equals the fraction of samples whose entire
binarized prediction row equals the ground-truth row, which is the same
number as `subset_accuracy` — not the per-label mean. -/
theorem C1_accuracy_is_exact_match (yt yp : List (List Rat)) (C : Nat)
    (hN : yt.length = yp.length) (h1 : ∀ r ∈ yt, r.length = C)
    (h2 : ∀ r ∈ yp, r.length = C) :
    (calculate_metrics yt yp).accuracy
        = (((List.zip yt (binarizeM yp)).countP (fun q => q.1 == q.2)) : Rat)
          / (yt.length : Rat)
    ∧ (calculate_metrics yt yp).accuracy = (calculate_metrics yt yp).subset_accuracy := by
  have hb := mem_binarizeM_length h2
  have hq := zip_row_lengths h1 hb
  constructor
  · show accuracy_score yt (binarizeM yp) = _
    unfold accuracy_score ratMean
    rw [zipWith_rowAllEq_sum yt (binarizeM yp) hq]
    congr 1
    rw [List.length_zipWith, length_binarizeM, ← hN, min_self]
  · rfl

/-- Witness for the amended claim C1 at the concrete matrices of the
Hamming scenario. -/
theorem C1_accuracy_is_exact_match_witness :
    (calculate_metrics [[1,0],[0,1]] [[0,0],[0,1]]).accuracy
        = (((List.zip [[(1:Rat),0],[0,1]] (binarizeM [[0,0],[0,1]])).countP
              (fun q => q.1 == q.2)) : Rat)
          / (([[(1:Rat),0],[0,1]] : List (List Rat)).length : Rat)
    ∧ (calculate_metrics [[1,0],[0,1]] [[0,0],[0,1]]).accuracy
        = (calculate_metrics [[1,0],[0,1]] [[0,0],[0,1]]).subset_accuracy :=
  C1_accuracy_is_exact_match [[1,0],[0,1]] [[0,0],[0,1]] 2 rfl (by decide) (by decide)

/-! Claim C4. -/

/-- Claim C4: `subset_accuracy` is the fraction of rows whose entire
binarized prediction vector equals the ground-truth row, `hamming_loss`
is the fraction of the N times C individual label bits on which they
differ, and on `y_true = [[1,0],[0,1]]` with `y_pred` binarizing to
`[[0,0],[0,1]]` the Hamming loss is 1/4. -/
theorem C4_subset_hamming :
    (∀ (yt yp : List (List Rat)) (C : Nat), yt.length = yp.length →
      (∀ r ∈ yt, r.length = C) → (∀ r ∈ yp, r.length = C) →
      (calculate_metrics yt yp).subset_accuracy
          = (((List.zip yt (binarizeM yp)).countP (fun q => q.1 == q.2)) : Rat)
            / (yt.length : Rat)
        ∧ (calculate_metrics yt yp).hamming_loss
          = ((((List.zip yt (binarizeM yp)).map
                (fun q => (List.zip q.1 q.2).countP (fun e => e.1 != e.2))).sum : Nat) : Rat)
            / ((yt.length : Rat) * (C : Rat)))
    ∧ (calculate_metrics [[1,0],[0,1]] [[0,0],[0,1]]).hamming_loss = 1/4 := by
  constructor
  · intro yt yp C hN h1 h2
    have hb := mem_binarizeM_length h2
    have hq := zip_row_lengths h1 hb
    constructor
    · show subsetAccuracy yt (binarizeM yp) = _
      unfold subsetAccuracy ratMean
      rw [zipWith_rowAllEq_sum yt (binarizeM yp) hq]
      congr 1
      rw [List.length_zipWith, length_binarizeM, ← hN, min_self]
    · show hammingLoss yt (binarizeM yp) = _
      unfold hammingLoss ratMean
      rw [List.sum_flatten, List.length_flatten,
        zipWith_eq_map_zip rowDiffer yt (binarizeM yp), List.map_map, List.map_map]
      have hs : ((List.zip yt (binarizeM yp)).map (List.sum ∘ fun q => rowDiffer q.1 q.2))
          = (List.zip yt (binarizeM yp)).map
              (fun q => (((List.zip q.1 q.2).countP (fun e => e.1 != e.2) : Nat) : Rat)) := by
        refine List.map_congr_left ?_
        intro q _
        exact rowDiffer_sum q.1 q.2
      have hl : ((List.zip yt (binarizeM yp)).map (List.length ∘ fun q => rowDiffer q.1 q.2))
          = (List.zip yt (binarizeM yp)).map (fun _ => C) := by
        refine List.map_congr_left ?_
        intro q hqmem
        obtain ⟨hm1, hm2⟩ := List.of_mem_zip hqmem
        simp [rowDiffer, h1 q.1 hm1, hb q.2 hm2]
      rw [hs, hl, List.map_const', List.sum_replicate]
      have hzlen : (List.zip yt (binarizeM yp)).length = yt.length := by
        rw [List.length_zip, length_binarizeM, ← hN, min_self]
      rw [hzlen, Nat.cast_list_sum, List.map_map, smul_eq_mul]
      push_cast
      rfl
  · norm_num [calculate_metrics, hammingLoss, binarizeM, binarizeOne, rowDiffer, ratMean]

/-- Witness for claim C4 at the Hamming scenario matrices. -/
theorem C4_subset_hamming_witness :
    ((calculate_metrics [[1,0],[0,1]] [[0,0],[0,1]]).subset_accuracy
        = (((List.zip [[(1:Rat),0],[0,1]] (binarizeM [[0,0],[0,1]])).countP
              (fun q => q.1 == q.2)) : Rat)
          / (([[(1:Rat),0],[0,1]] : List (List Rat)).length : Rat)
      ∧ (calculate_metrics [[1,0],[0,1]] [[0,0],[0,1]]).hamming_loss
        = ((((List.zip [[(1:Rat),0],[0,1]] (binarizeM [[0,0],[0,1]])).map
              (fun q => (List.zip q.1 q.2).countP (fun e => e.1 != e.2))).sum : Nat) : Rat)
          / ((([[(1:Rat),0],[0,1]] : List (List Rat)).length : Rat) * ((2:Nat) : Rat)))
    ∧ (calculate_metrics [[1,0],[0,1]] [[0,0],[0,1]]).hamming_loss = 1/4 :=
  ⟨C4_subset_hamming.1 [[1,0],[0,1]] [[0,0],[0,1]] 2 rfl (by decide) (by decide),
    C4_subset_hamming.2⟩

/-! Claim C10. -/

/-- Claim C10 as stated is false for the `auc` field: two prediction
matrices with the same binarization (one scoring the positive sample
exactly 0.5, the other scoring it 0) give different `auc` values, so a
score of exactly 0.5 is not treated as a plain negative prediction in
every returned metric — `auc` consumes the raw scores and never applies
the 0.5 threshold. -/
theorem C10_auc_not_thresholded :
    binarizeM [[1/2],[0]] = binarizeM [[0],[0]]
    ∧ (calculate_metrics [[1],[0]] [[1/2],[0]]).auc = 1
    ∧ (calculate_metrics [[1],[0]] [[0],[0]]).auc = 1/2
    ∧ (calculate_metrics [[1],[0]] [[1/2],[0]]).auc
        ≠ (calculate_metrics [[1],[0]] [[0],[0]]).auc := by
  have hb : binarizeM [[1/2],[0]] = binarizeM [[0],[0]] := by
    norm_num [binarizeM, binarizeOne]
  have h1 : (calculate_metrics [[1],[0]] [[1/2],[0]]).auc = 1 := by
    norm_num [calculate_metrics, aucField, matCol, rocAucScore, columnBinary, ratMean,
      List.range, List.range.loop, List.dedup, List.filterMap_cons]
  have h2 : (calculate_metrics [[1],[0]] [[0],[0]]).auc = 1/2 := by
    norm_num [calculate_metrics, aucField, matCol, rocAucScore, columnBinary, ratMean,
      List.range, List.range.loop, List.dedup, List.filterMap_cons]
  exact ⟨hb, h1, h2, by rw [h1, h2]; norm_num⟩

/-- Claim C10 amended: the binarization is strict — the binarized label
is 1 exactly when the score is strictly greater than 0.5, so a score of
exactly 0.5 binarizes to 0 — and every metric computed from the
binarized matrix (`accuracy`, `subset_accuracy`, `hamming_loss`; in the
source also the precision, recall and F1 family) is unchanged when the
prediction matrix is replaced by one with the same binarization. The
`auc` field consumes the raw scores and is outside the threshold. -/
theorem C10_strict_threshold (p : Rat) (yt yp yp2 : List (List Rat))
    (hb : binarizeM yp = binarizeM yp2) :
    (binarizeOne p = 1 ↔ 1/2 < p)
    ∧ (binarizeOne p = 0 ↔ p ≤ 1/2)
    ∧ binarizeOne (1/2) = 0
    ∧ (calculate_metrics yt yp).accuracy = (calculate_metrics yt yp2).accuracy
    ∧ (calculate_metrics yt yp).subset_accuracy
        = (calculate_metrics yt yp2).subset_accuracy
    ∧ (calculate_metrics yt yp).hamming_loss
        = (calculate_metrics yt yp2).hamming_loss := by
  refine ⟨?_, ?_, by norm_num [binarizeOne], ?_, ?_, ?_⟩
  · by_cases hc : (1:Rat)/2 < p <;> norm_num [binarizeOne, hc]
  · by_cases hc : (1:Rat)/2 < p <;> norm_num [binarizeOne, hc] <;> linarith
  · show accuracy_score yt (binarizeM yp) = accuracy_score yt (binarizeM yp2)
    rw [hb]
  · show subsetAccuracy yt (binarizeM yp) = subsetAccuracy yt (binarizeM yp2)
    rw [hb]
  · show hammingLoss yt (binarizeM yp) = hammingLoss yt (binarizeM yp2)
    rw [hb]

/-- Witness for the amended claim C10 at score 0.5 and one-entry
matrices whose binarizations agree. -/
theorem C10_strict_threshold_witness :
    (binarizeOne (1/2) = 1 ↔ 1/2 < (1/2 : Rat))
    ∧ (binarizeOne (1/2) = 0 ↔ (1/2 : Rat) ≤ 1/2)
    ∧ binarizeOne (1/2) = 0
    ∧ (calculate_metrics [[0]] [[1/2]]).accuracy = (calculate_metrics [[0]] [[0]]).accuracy
    ∧ (calculate_metrics [[0]] [[1/2]]).subset_accuracy
        = (calculate_metrics [[0]] [[0]]).subset_accuracy
    ∧ (calculate_metrics [[0]] [[1/2]]).hamming_loss
        = (calculate_metrics [[0]] [[0]]).hamming_loss :=
  C10_strict_threshold (1/2) [[0]] [[1/2]] [[0]] (by norm_num [binarizeM, binarizeOne])

/-! Claim C2. -/

/-- Claim C2 concerns a code bug: `_assign_split` buckets
`hash(img_file.name) % 100`, and the Python builtin `hash` on strings is
salted with a fresh unpredictable value in every interpreter process, so
two runs that share no external state evaluate two unrelated hash
functions. Modelling the per-process hash as the explicit parameter, the
same file name lands in different splits under different salts — here a
salt hashing the name to 0 against one hashing it to 90 — refuting the
identical-assignment guarantee; determinism holds only within a single
process or under a pinned `PYTHONHASHSEED`. -/
theorem C2_split_depends_on_hash_salt :
    assignSplit (fun _ => 0) "img001.jpg" = "train"
    ∧ assignSplit (fun _ => 90) "img001.jpg" = "test" :=
  ⟨by decide, by decide⟩

/-! Claim C3. -/

theorem dedup_replicate_succ (m : Nat) (a : Rat) :
    (List.replicate (m + 1) a).dedup = [a] := by
  induction m with
  | zero => simp
  | succ k ih => rw [List.replicate_succ, List.dedup_cons_of_mem (by simp), ih]

theorem all_congr_mem {α : Type} (l : List α) (f g : α → Bool)
    (h : ∀ a ∈ l, f a = g a) : l.all f = l.all g := by
  induction l with
  | nil => rfl
  | cons a l ih =>
    simp only [List.all_cons, h a (by simp), ih (fun b hb => h b (by simp [hb]))]

/-- Claim C3: the `auc` field skips every class whose ground-truth
column has fewer than two distinct values, averages the ROC AUC over the
remaining classes, and reports 0.0 when no class qualifies; in
particular a single all-zero ground-truth column gives 0.0 for any
predictions, appending a constant ground-truth column (with arbitrary
prediction scores for it) never changes the value, and the embedded
function is total, so no exception is raised on degenerate inputs. The
two concrete conjuncts show one skipped column among a scored one and
the plain average of two qualifying columns. -/
theorem C3_auc_degenerate :
    (∀ (n : Nat) (yp : List (List Rat)),
      (calculate_metrics (List.replicate n [(0:Rat)]) yp).auc = 0)
    ∧ (∀ (yt yp : List (List Rat)),
        (List.range (yt.headD []).length).filter
            (fun i => 1 < (matCol yt i).dedup.length) = [] →
        (calculate_metrics yt yp).auc = 0)
    ∧ (∀ (yt yp : List (List Rat)) (C : Nat) (v w : Rat),
        (∀ r ∈ yt, r.length = C) → (∀ r ∈ yp, r.length = C) →
        (calculate_metrics (yt.map (fun r => r ++ [v])) (yp.map (fun r => r ++ [w]))).auc
          = (calculate_metrics yt yp).auc)
    ∧ (calculate_metrics [[1,0],[0,0]] [[9/10,1/2],[1/10,1/2]]).auc = 1
    ∧ (calculate_metrics [[1,1],[0,0]] [[9/10,2/10],[1/10,8/10]]).auc = 1/2 := by
  have key : ∀ (yt yp : List (List Rat)),
      (List.range (yt.headD []).length).filter
          (fun i => 1 < (matCol yt i).dedup.length) = [] →
      aucField yt yp = 0 := by
    intro yt yp h
    simp only [aucField]
    rw [h]
    rfl
  refine ⟨?_, fun yt yp h => key yt yp h, ?_, ?_, ?_⟩
  · intro n yp
    cases n with
    | zero => rfl
    | succ m =>
      show aucField (List.replicate (m + 1) [(0:Rat)]) yp = 0
      refine key _ yp ?_
      have hC : ((List.replicate (m + 1) [(0:Rat)]).headD []).length = 1 := by
        rw [List.replicate_succ]; rfl
      have hcol : matCol (List.replicate (m + 1) [(0:Rat)]) 0
          = List.replicate (m + 1) (0:Rat) := by
        simp [matCol, List.map_replicate]
      rw [hC, show List.range 1 = [0] from rfl]
      refine List.filter_cons_of_neg ?_
      simp [hcol, dedup_replicate_succ]
  · intro yt yp C v w h1 h2
    cases yt with
    | nil => rfl
    | cons r0 rest =>
      have hC0 : r0.length = C := h1 r0 (by simp)
      show aucField ((r0 :: rest).map (fun r => r ++ [v])) (yp.map (fun r => r ++ [w]))
          = aucField (r0 :: rest) yp
      have hCext : (((r0 :: rest).map (fun r => r ++ [v])).headD []).length = C + 1 := by
        simp [hC0]
      have hCorig : ((r0 :: rest).headD []).length = C := by simpa using hC0
      have hcolt : ∀ i, i < C →
          matCol ((r0 :: rest).map (fun r => r ++ [v])) i = matCol (r0 :: rest) i := by
        intro i hi
        unfold matCol
        rw [List.map_map]
        refine List.map_congr_left ?_
        intro r hr
        exact List.getD_append r [v] 0 i (by rw [h1 r hr]; exact hi)
      have hcolp : ∀ i, i < C →
          matCol (yp.map (fun r => r ++ [w])) i = matCol yp i := by
        intro i hi
        unfold matCol
        rw [List.map_map]
        refine List.map_congr_left ?_
        intro r hr
        exact List.getD_append r [w] 0 i (by rw [h2 r hr]; exact hi)
      have hlast : matCol ((r0 :: rest).map (fun r => r ++ [v])) C
          = List.replicate (r0 :: rest).length v := by
        unfold matCol
        rw [List.map_map]
        rw [List.map_congr_left (g := fun _ => v) ?_]
        · exact List.map_const' (r0 :: rest) v
        · intro r hr
          show (r ++ [v]).getD C 0 = v
          rw [List.getD_append_right r [v] 0 C (by rw [h1 r hr])]
          rw [h1 r hr]
          simp
      have hlastded :
          ¬ (1 < (matCol ((r0 :: rest).map (fun r => r ++ [v])) C).dedup.length) := by
        rw [hlast, show (r0 :: rest).length = rest.length + 1 from rfl,
          dedup_replicate_succ]
        simp
      simp only [aucField, hCext, hCorig]
      rw [List.range_succ, List.filter_append]
      have hfil_last :
          List.filter
            (fun i => decide (1 < (matCol ((r0 :: rest).map (fun r => r ++ [v])) i).dedup.length))
            [C] = [] := by
        refine List.filter_cons_of_neg ?_
        simpa using hlastded
      rw [hfil_last, List.append_nil]
      have hfil_eq :
          List.filter
              (fun i => decide (1 < (matCol ((r0 :: rest).map (fun r => r ++ [v])) i).dedup.length))
              (List.range C)
            = List.filter (fun i => decide (1 < (matCol (r0 :: rest) i).dedup.length))
                (List.range C) := by
        refine List.filter_congr ?_
        intro i hi
        rw [hcolt i (List.mem_range.mp hi)]
      rw [hfil_eq]
      have hmemC : ∀ i ∈ List.filter
          (fun i => decide (1 < (matCol (r0 :: rest) i).dedup.length)) (List.range C),
          i < C := by
        intro i hi
        exact List.mem_range.mp (List.mem_of_mem_filter hi)
      rw [all_congr_mem _ _ (fun i => columnBinary (matCol (r0 :: rest) i))
        (fun i hi => by rw [hcolt i (hmemC i hi)])]
      rw [List.map_congr_left
        (g := fun i => rocAucScore (matCol (r0 :: rest) i) (matCol yp i))
        (fun i hi => by rw [hcolt i (hmemC i hi), hcolp i (hmemC i hi)])]
  · norm_num [calculate_metrics, aucField, matCol, rocAucScore, columnBinary, ratMean,
      List.range, List.range.loop, List.dedup, List.filterMap_cons]
  · norm_num [calculate_metrics, aucField, matCol, rocAucScore, columnBinary, ratMean,
      List.range, List.range.loop, List.dedup, List.filterMap_cons]

/-- Witness for claim C3: the no-qualifying-class branch at an empty
matrix and the constant-column extension at one-entry matrices, through
the theorem itself. -/
theorem C3_auc_degenerate_witness :
    (calculate_metrics (List.replicate 2 [(0:Rat)]) [[1],[0]]).auc = 0
    ∧ (calculate_metrics ([] : List (List Rat)) ([] : List (List Rat))).auc = 0
    ∧ (calculate_metrics ([[(1:Rat)]].map (fun r => r ++ [0]))
        ([[(9:Rat)/10]].map (fun r => r ++ [0]))).auc
      = (calculate_metrics [[(1:Rat)]] [[(9:Rat)/10]]).auc :=
  ⟨C3_auc_degenerate.1 2 [[1],[0]],
    C3_auc_degenerate.2.1 [] [] rfl,
    C3_auc_degenerate.2.2.1 [[(1:Rat)]] [[(9:Rat)/10]] 1 0 0 (by decide) (by decide)⟩

/-! Claim C5. -/

theorem assignSplit_trichotomy (h : String → Int) (name : String) :
    assignSplit h name = "train" ∨ assignSplit h name = "val"
      ∨ assignSplit h name = "test" := by
  simp only [assignSplit]
  split_ifs <;> simp

theorem createMetadata_split_mem (h : String → Int) (root : List DirEntry) :
    ((createMetadataFromStructure h root).map (fun r => r.split)).all
      (fun s => s == "train" || s == "val" || s == "test") = true := by
  rw [List.all_eq_true]
  intro s hs
  rw [List.mem_map] at hs
  obtain ⟨r, hr, rfl⟩ := hs
  unfold createMetadataFromStructure at hr
  rw [List.mem_flatMap] at hr
  obtain ⟨d, _, hrd⟩ := hr
  by_cases hg : (d.isDir && !strStartsWith d.name ".") = true
  · rw [if_pos hg] at hrd
    rw [List.mem_map] at hrd
    obtain ⟨f, _, rfl⟩ := hrd
    rcases assignSplit_trichotomy h f with ht | ht | ht <;> simp [ht]
  · rw [if_neg hg] at hrd
    exact absurd hrd (List.not_mem_nil r)

/-- Claim C5: the synthesis-path split assignment reduces the hash of
the file name modulo 100 and maps the bucket to `train` on [0, 70), to
`val` on [70, 85) and to `test` on [85, 100); the bucket always lies in
[0, 100), the result is always one of the three split names, the
assignment is a function of the file name alone (for the per-process
hash `h`), and consequently every synthesized record carries one of
exactly these three split values. -/
theorem C5_assign_split_buckets (h : String → Int) (name : String) :
    (assignSplit h name = "train" ↔ h name % 100 < 70)
    ∧ (assignSplit h name = "val" ↔ (70 ≤ h name % 100 ∧ h name % 100 < 85))
    ∧ (assignSplit h name = "test" ↔ 85 ≤ h name % 100)
    ∧ (0 ≤ h name % 100 ∧ h name % 100 < 100)
    ∧ (∀ root : List DirEntry,
        ((createMetadataFromStructure h root).map (fun r => r.split)).all
          (fun s => s == "train" || s == "val" || s == "test") = true) := by
  have h0 : (0:Int) ≤ h name % 100 := Int.emod_nonneg _ (by norm_num)
  have h100 : h name % 100 < 100 := Int.emod_lt_of_pos _ (by norm_num)
  have hs1 : ("train" : String) ≠ "val" := by decide
  have hs2 : ("train" : String) ≠ "test" := by decide
  have hs3 : ("val" : String) ≠ "test" := by decide
  have hs4 : ("val" : String) ≠ "train" := by decide
  have hs5 : ("test" : String) ≠ "train" := by decide
  have hs6 : ("test" : String) ≠ "val" := by decide
  refine ⟨?_, ?_, ?_, ⟨h0, h100⟩, fun root => createMetadata_split_mem h root⟩
  · simp only [assignSplit]
    split_ifs with hc1 hc2
    · exact iff_of_true rfl hc1
    · exact iff_of_false hs4 (by omega)
    · exact iff_of_false hs5 (by omega)
  · simp only [assignSplit]
    split_ifs with hc1 hc2
    · exact iff_of_false hs1 (by omega)
    · exact iff_of_true rfl ⟨by omega, hc2⟩
    · exact iff_of_false hs6 (by omega)
  · simp only [assignSplit]
    split_ifs with hc1 hc2
    · exact iff_of_false hs2 (by omega)
    · exact iff_of_false hs3 (by omega)
    · exact iff_of_true rfl (by omega)

/-! Claim C6. -/

/-- Claim C6 as stated is false on the code: the synthesis path only
globs `*.jpg`, so an image file with another raster extension yields no
record. The directory `rose` is a visible immediate subdirectory and
`leaf.png` is an image file inside it, yet the synthesized record set is
empty. -/
theorem C6_png_yields_no_record :
    specIsImageFile "leaf.png" = true
    ∧ (⟨"rose", true, ["leaf.png"]⟩ : DirEntry).isDir = true
    ∧ strStartsWith "rose" "." = false
    ∧ createMetadataFromStructure (fun _ => 0) [⟨"rose", true, ["leaf.png"]⟩] = [] :=
  ⟨by decide, rfl, by decide, by decide⟩

theorem str_append_cancel (a b c : String) : a ++ b = a ++ c ↔ b = c := by
  constructor
  · intro hx
    have hd := congrArg String.data hx
    rw [String.data_append, String.data_append] at hd
    exact String.ext (List.append_cancel_left hd)
  · intro hx
    rw [hx]

theorem flatMap_countP_zero {α β : Type} (p : β → Bool) (g : α → List β) :
    ∀ (l : List α), (∀ e ∈ l, (g e).countP p = 0) → (l.flatMap g).countP p = 0
  | [], _ => by simp
  | e :: l, hz => by
    rw [List.flatMap_cons, List.countP_append, hz e (by simp),
      flatMap_countP_zero p g l (fun x hx => hz x (by simp [hx]))]

theorem block_countP_zero (h : String → Int) (e : DirEntry) (nm pth : String)
    (hne : e.name ≠ nm) :
    ((if e.isDir && !strStartsWith e.name "." then
        (globJpg e.files).map (fun f =>
          ({ image_path := e.name ++ "/" ++ f, class_name := e.name,
             split := assignSplit h f } : SampleRecord))
      else []).countP (fun r => r.class_name == nm && r.image_path == pth)) = 0 := by
  by_cases hg : (e.isDir && !strStartsWith e.name ".") = true
  · rw [if_pos hg]
    refine List.countP_eq_zero.mpr ?_
    intro r hr
    rw [List.mem_map] at hr
    obtain ⟨f, _, rfl⟩ := hr
    simp [hne]
  · rw [if_neg hg]
    rfl

/-- Claim C6 amended: when no metadata file exists, every immediate
non-dot-prefixed subdirectory of the root is taken as a class name and
every file inside it whose name ends in `.jpg` yields exactly one
SampleRecord, with that class name and a path relative to the root;
image files with other extensions yield none. -/
theorem C6_jpg_synthesis (h : String → Int) (root : List DirEntry)
    (d : DirEntry) (f : String)
    (hroot : (root.map (fun e => e.name)).Nodup) (hmem : d ∈ root)
    (hdir : d.isDir = true) (hvis : strStartsWith d.name "." = false)
    (hfiles : d.files.Nodup) (hf : f ∈ d.files)
    (hjpg : strEndsWith f ".jpg" = true) :
    (createMetadataFromStructure h root).countP
        (fun r => r.class_name == d.name && r.image_path == d.name ++ "/" ++ f) = 1 := by
  obtain ⟨l1, l2, rfl⟩ := List.append_of_mem hmem
  have hnames := hroot
  rw [List.map_append, List.map_cons, List.nodup_append] at hnames
  obtain ⟨hn1, hn2, hdisj⟩ := hnames
  have hd2 : d.name ∉ l2.map (fun e => e.name) := (List.nodup_cons.mp hn2).1
  have hd1 : d.name ∉ l1.map (fun e => e.name) := by
    intro hx
    exact hdisj hx (by simp)
  unfold createMetadataFromStructure
  rw [List.flatMap_append, List.flatMap_cons, List.countP_append, List.countP_append]
  have hz1 : (l1.flatMap (fun d2 =>
      if d2.isDir && !strStartsWith d2.name "." then
        (globJpg d2.files).map (fun f2 =>
          ({ image_path := d2.name ++ "/" ++ f2, class_name := d2.name,
             split := assignSplit h f2 } : SampleRecord))
      else [])).countP
        (fun r => r.class_name == d.name && r.image_path == d.name ++ "/" ++ f) = 0 := by
    refine flatMap_countP_zero _ _ l1 ?_
    intro e he
    refine block_countP_zero h e d.name (d.name ++ "/" ++ f) ?_
    intro hx
    exact hd1 (hx ▸ List.mem_map_of_mem (fun e2 => e2.name) he)
  have hz2 : (l2.flatMap (fun d2 =>
      if d2.isDir && !strStartsWith d2.name "." then
        (globJpg d2.files).map (fun f2 =>
          ({ image_path := d2.name ++ "/" ++ f2, class_name := d2.name,
             split := assignSplit h f2 } : SampleRecord))
      else [])).countP
        (fun r => r.class_name == d.name && r.image_path == d.name ++ "/" ++ f) = 0 := by
    refine flatMap_countP_zero _ _ l2 ?_
    intro e he
    refine block_countP_zero h e d.name (d.name ++ "/" ++ f) ?_
    intro hx
    exact hd2 (hx ▸ List.mem_map_of_mem (fun e2 => e2.name) he)
  rw [hz1, hz2]
  have hgd : (d.isDir && !strStartsWith d.name ".") = true := by
    rw [hdir, hvis]
    rfl
  rw [if_pos hgd, List.countP_map]
  have hmid : (globJpg d.files).countP
      ((fun r => r.class_name == d.name && r.image_path == d.name ++ "/" ++ f) ∘
        (fun f2 => ({ image_path := d.name ++ "/" ++ f2, class_name := d.name,
                      split := assignSplit h f2 } : SampleRecord))) = 1 := by
    have hcong : ∀ f2 ∈ globJpg d.files,
        ((fun r => r.class_name == d.name && r.image_path == d.name ++ "/" ++ f) ∘
          (fun f2 => ({ image_path := d.name ++ "/" ++ f2, class_name := d.name,
                        split := assignSplit h f2 } : SampleRecord))) f2 = (f2 == f) := by
      intro f2 _
      show (d.name == d.name && (d.name ++ "/" ++ f2 == d.name ++ "/" ++ f)) = (f2 == f)
      rw [beq_self_eq_true, Bool.true_and]
      by_cases hq : f2 = f
      · rw [hq, beq_self_eq_true, beq_self_eq_true]
      · have hph : d.name ++ "/" ++ f2 ≠ d.name ++ "/" ++ f := by
          intro hx
          exact hq ((str_append_cancel (d.name ++ "/") f2 f).mp hx)
        simp [hq, hph]
    rw [List.countP_congr (fun x hx => by rw [hcong x hx])]
    have hcnt : (globJpg d.files).count f = 1 :=
      List.count_eq_one_of_mem (hfiles.filter _)
        (List.mem_filter.mpr ⟨hf, hjpg⟩)
    rw [← hcnt, List.count_eq_countP]
  rw [hmid]

/-- Witness for the amended claim C6 at a one-directory, one-file
layout. -/
theorem C6_jpg_synthesis_witness :
    (createMetadataFromStructure (fun _ => 0) [⟨"rose", true, ["a.jpg"]⟩]).countP
        (fun r => r.class_name == (⟨"rose", true, ["a.jpg"]⟩ : DirEntry).name
          && r.image_path == (⟨"rose", true, ["a.jpg"]⟩ : DirEntry).name ++ "/" ++ "a.jpg") = 1 :=
  C6_jpg_synthesis (fun _ => 0) [⟨"rose", true, ["a.jpg"]⟩] ⟨"rose", true, ["a.jpg"]⟩
    "a.jpg" (by decide) (by decide) rfl (by decide) (by decide) (by decide)
    (by decide)

/-! Claim C7. -/

theorem get_replicate_zero : ∀ (m j : Nat), j < m →
    (List.replicate m (0:Rat)).get? j = some 0
  | 0, j, hj => absurd hj (Nat.not_lt_zero j)
  | _ + 1, 0, _ => rfl
  | m + 1, j + 1, hj => get_replicate_zero m j (Nat.lt_of_succ_lt_succ hj)

theorem set_replicate_get_self : ∀ (m i : Nat), i < m →
    ((List.replicate m (0:Rat)).set i 1).get? i = some 1
  | 0, i, hi => absurd hi (Nat.not_lt_zero i)
  | _ + 1, 0, _ => rfl
  | m + 1, i + 1, hi => set_replicate_get_self m i (Nat.lt_of_succ_lt_succ hi)

theorem set_replicate_get_other : ∀ (m i j : Nat), j < m → j ≠ i →
    ((List.replicate m (0:Rat)).set i 1).get? j = some 0
  | 0, _, j, hj, _ => absurd hj (Nat.not_lt_zero j)
  | _ + 1, 0, 0, _, hne => absurd rfl hne
  | m + 1, 0, j + 1, hj, _ => get_replicate_zero m j (Nat.lt_of_succ_lt_succ hj)
  | _ + 1, _ + 1, 0, _, _ => rfl
  | m + 1, i + 1, j + 1, hj, hne =>
    set_replicate_get_other m i j (Nat.lt_of_succ_lt_succ hj)
      (fun hx => hne (by rw [hx]))

theorem count_one_set_replicate : ∀ (m i : Nat), i < m →
    ((List.replicate m (0:Rat)).set i 1).count 1 = 1
  | 0, i, hi => absurd hi (Nat.not_lt_zero i)
  | m + 1, 0, _ => by
    show ((1:Rat) :: List.replicate m 0).count 1 = 1
    rw [List.count_cons, List.count_replicate]
    norm_num
  | m + 1, i + 1, hi => by
    show ((0:Rat) :: (List.replicate m 0).set i 1).count 1 = 1
    rw [List.count_cons, count_one_set_replicate m i (Nat.lt_of_succ_lt_succ hi)]
    norm_num

/-- Claim C7: for every class name that is a key of the class_to_idx
mapping (with its index below num_classes, the registry bijection
invariant), the produced label vector is `torch.zeros(num_classes)` with
position `class_idx` set to one: it has length `num_classes`, holds 1.0
at the registry index of the class name, 0.0 everywhere else, and has
exactly one entry equal to 1.0. -/
theorem C7_one_hot_label (m : List (String × Nat)) (num : Nat) (name : String)
    (i : Nat) (hl : lookupIdx m name = some i) (hi : i < num) :
    createLabel m num name = some ((List.replicate num (0:Rat)).set i 1)
    ∧ ((List.replicate num (0:Rat)).set i 1).length = num
    ∧ ((List.replicate num (0:Rat)).set i 1).get? i = some 1
    ∧ (∀ j, j < num → j ≠ i → ((List.replicate num (0:Rat)).set i 1).get? j = some 0)
    ∧ ((List.replicate num (0:Rat)).set i 1).count 1 = 1 := by
  refine ⟨?_, ?_, set_replicate_get_self num i hi,
    fun j hj hne => set_replicate_get_other num i j hj hne,
    count_one_set_replicate num i hi⟩
  · have hcl : createLabel m num name
        = if i < num then some ((List.replicate num (0:Rat)).set i 1) else none := by
      unfold createLabel
      rw [hl]
    rw [hcl, if_pos hi]
  · rw [List.length_set, List.length_replicate]

/-- Witness for claim C7 on a one-class registry. -/
theorem C7_one_hot_label_witness :
    createLabel [("healthy", 0)] 1 "healthy" = some ((List.replicate 1 (0:Rat)).set 0 1)
    ∧ ((List.replicate 1 (0:Rat)).set 0 1).count 1 = 1 :=
  ⟨(C7_one_hot_label [("healthy", 0)] 1 "healthy" 0 rfl (by norm_num)).1,
    (C7_one_hot_label [("healthy", 0)] 1 "healthy" 0 rfl (by norm_num)).2.2.2.2⟩

/-! Claim C8. -/

theorem ilocRow_spec (view : List SampleRecord) (idx : Int) :
    (ilocRow view idx = Except.error PyErr.indexError
        ↔ (idx < -(view.length : Int) ∨ (view.length : Int) ≤ idx))
    ∧ ((idx < -(view.length : Int) ∨ (view.length : Int) ≤ idx)
        ∨ ∃ r, ilocRow view idx = Except.ok r) := by
  simp only [ilocRow]
  by_cases hc1 : 0 ≤ idx ∧ idx < (view.length : Int)
  · rw [if_pos hc1]
    obtain ⟨r, hr⟩ : ∃ r, view.get? idx.toNat = some r := by
      cases hg : view.get? idx.toNat with
      | none => exact absurd (List.get?_eq_none.mp hg) (by omega)
      | some r => exact ⟨r, rfl⟩
    rw [hr]
    exact ⟨⟨fun hx => by simp at hx, fun hx => by omega⟩, Or.inr ⟨r, rfl⟩⟩
  · rw [if_neg hc1]
    by_cases hc2 : -(view.length : Int) ≤ idx ∧ idx < 0
    · rw [if_pos hc2]
      obtain ⟨r, hr⟩ : ∃ r, view.get? (idx + view.length).toNat = some r := by
        cases hg : view.get? (idx + view.length).toNat with
        | none => exact absurd (List.get?_eq_none.mp hg) (by omega)
        | some r => exact ⟨r, rfl⟩
      rw [hr]
      exact ⟨⟨fun hx => by simp at hx, fun hx => by omega⟩, Or.inr ⟨r, rfl⟩⟩
    · rw [if_neg hc2]
      exact ⟨⟨fun _ => by omega, fun _ => rfl⟩, Or.inl (by omega)⟩

/-- Claim C8 as stated is false on the code: at index -1 on a one-record
split view the pandas positional lookup accepts the negative index like
a Python list, so no indexing error is raised although -1 is outside
[0, L); the call fails afterwards with the NameError from the unbound
name `np` on line 121. -/
theorem C8_negative_index_not_index_error :
    getitem (fun _ => some ()) [⟨"rose/a.jpg", "rose", "train"⟩] (-1)
        = Except.error PyErr.nameError
    ∧ getitem (fun _ => some ()) [⟨"rose/a.jpg", "rose", "train"⟩] (-1)
        ≠ Except.error PyErr.indexError := by
  have h1 : getitem (fun _ => some ()) [⟨"rose/a.jpg", "rose", "train"⟩] (-1)
      = Except.error PyErr.nameError := rfl
  refine ⟨h1, ?_⟩
  rw [h1]
  intro hx
  simp at hx

/-- Claim C8 amended: the positional lookup raises an indexing error
exactly for indices outside [-L, L) — negative indices in [-L, 0)
address rows from the back, pandas-style, and raise no indexing error —
and no call of `getitem` ever returns a sample, because the body
dereferences the unbound name `np` (numpy is never imported in
`dataset.py`) after any successful row lookup. -/
theorem C8_index_error_range (openImage : String → Option Unit)
    (view : List SampleRecord) (idx : Int) :
    (getitem openImage view idx = Except.error PyErr.indexError
        ↔ (idx < -(view.length : Int) ∨ (view.length : Int) ≤ idx))
    ∧ (getitem openImage view idx).isOk = false := by
  obtain ⟨hiff, hcase⟩ := ilocRow_spec view idx
  constructor
  · constructor
    · intro hx
      rcases hcase with hrange | ⟨r, hr⟩
      · exact hrange
      · exfalso
        have hgi : getitem openImage view idx
            = match openImage r.image_path with
              | none => Except.error PyErr.ioError
              | some _ => Except.error PyErr.nameError := by
          unfold getitem
          rw [hr]
        rw [hgi] at hx
        cases ho : openImage r.image_path <;> rw [ho] at hx <;> simp at hx
    · intro hx
      unfold getitem
      rw [hiff.mpr hx]
  · rcases hcase with hrange | ⟨r, hr⟩
    · unfold getitem
      rw [hiff.mpr hrange]
      rfl
    · have hgi : getitem openImage view idx
          = match openImage r.image_path with
            | none => Except.error PyErr.ioError
            | some _ => Except.error PyErr.nameError := by
        unfold getitem
        rw [hr]
      rw [hgi]
      cases openImage r.image_path <;> rfl

/-! Claim C9. -/

/-- Claim C9 concerns a code bug: line 190 of `dataset.py` names the
comprehension variable `def`, a Python reserved word, so importing the
module raises SyntaxError and `_categorize_diseases` can never run; the
claim describes the evident intent, verified here on the embedding with
a legal variable name. Every class name is assigned exactly one of the
five categories by case-insensitive keyword containment in fixed rule
order with the first match winning; in particular a name containing both
`healthy` and `blight` is healthy, and each category list of the result
collects exactly the class names categorized to it. -/
theorem C9_categorization (cls : String) :
    categorizeOne "Tomato_healthy_Late_blight" = Category.healthy
    ∧ (categorizeOne cls = Category.healthy
        ↔ strContains (lowerChars cls) "healthy" = true)
    ∧ (categorizeOne cls = Category.disease
        ↔ (strContains (lowerChars cls) "healthy" = false
          ∧ containsAny (lowerChars cls) ["blight", "spot", "mildew", "rust", "wilt"] = true))
    ∧ (categorizeOne cls = Category.pest
        ↔ (strContains (lowerChars cls) "healthy" = false
          ∧ containsAny (lowerChars cls) ["blight", "spot", "mildew", "rust", "wilt"] = false
          ∧ containsAny (lowerChars cls) ["aphid", "mite", "bug", "beetle"] = true))
    ∧ (categorizeOne cls = Category.deficiency
        ↔ (strContains (lowerChars cls) "healthy" = false
          ∧ containsAny (lowerChars cls) ["blight", "spot", "mildew", "rust", "wilt"] = false
          ∧ containsAny (lowerChars cls) ["aphid", "mite", "bug", "beetle"] = false
          ∧ containsAny (lowerChars cls) ["deficiency", "nutrient", "chlorosis"] = true))
    ∧ (categorizeOne cls = Category.environmental
        ↔ (strContains (lowerChars cls) "healthy" = false
          ∧ containsAny (lowerChars cls) ["blight", "spot", "mildew", "rust", "wilt"] = false
          ∧ containsAny (lowerChars cls) ["aphid", "mite", "bug", "beetle"] = false
          ∧ containsAny (lowerChars cls) ["deficiency", "nutrient", "chlorosis"] = false))
    ∧ ([Category.healthy, Category.disease, Category.pest, Category.deficiency,
        Category.environmental].countP (fun c => categorizeOne cls == c) = 1)
    ∧ (∀ (classes : List String) (c : Category) (x : String),
        x ∈ categorizeDiseases classes c ↔ (x ∈ classes ∧ categorizeOne x = c)) := by
  refine ⟨by decide, ?_, ?_, ?_, ?_, ?_, ?_, ?_⟩
  · cases h1 : strContains (lowerChars cls) "healthy" <;>
      cases h2 : containsAny (lowerChars cls) ["blight", "spot", "mildew", "rust", "wilt"] <;>
        cases h3 : containsAny (lowerChars cls) ["aphid", "mite", "bug", "beetle"] <;>
          cases h4 : containsAny (lowerChars cls) ["deficiency", "nutrient", "chlorosis"] <;>
            simp [categorizeOne, h1, h2, h3, h4]
  · cases h1 : strContains (lowerChars cls) "healthy" <;>
      cases h2 : containsAny (lowerChars cls) ["blight", "spot", "mildew", "rust", "wilt"] <;>
        cases h3 : containsAny (lowerChars cls) ["aphid", "mite", "bug", "beetle"] <;>
          cases h4 : containsAny (lowerChars cls) ["deficiency", "nutrient", "chlorosis"] <;>
            simp [categorizeOne, h1, h2, h3, h4]
  · cases h1 : strContains (lowerChars cls) "healthy" <;>
      cases h2 : containsAny (lowerChars cls) ["blight", "spot", "mildew", "rust", "wilt"] <;>
        cases h3 : containsAny (lowerChars cls) ["aphid", "mite", "bug", "beetle"] <;>
          cases h4 : containsAny (lowerChars cls) ["deficiency", "nutrient", "chlorosis"] <;>
            simp [categorizeOne, h1, h2, h3, h4]
  · cases h1 : strContains (lowerChars cls) "healthy" <;>
      cases h2 : containsAny (lowerChars cls) ["blight", "spot", "mildew", "rust", "wilt"] <;>
        cases h3 : containsAny (lowerChars cls) ["aphid", "mite", "bug", "beetle"] <;>
          cases h4 : containsAny (lowerChars cls) ["deficiency", "nutrient", "chlorosis"] <;>
            simp [categorizeOne, h1, h2, h3, h4]
  · cases h1 : strContains (lowerChars cls) "healthy" <;>
      cases h2 : containsAny (lowerChars cls) ["blight", "spot", "mildew", "rust", "wilt"] <;>
        cases h3 : containsAny (lowerChars cls) ["aphid", "mite", "bug", "beetle"] <;>
          cases h4 : containsAny (lowerChars cls) ["deficiency", "nutrient", "chlorosis"] <;>
            simp [categorizeOne, h1, h2, h3, h4]
  · cases categorizeOne cls <;> decide
  · intro classes c x
    simp [categorizeDiseases, List.mem_filter]

end LeafLens
